import Mathlib

/-!
Verification development for the code-guardian chunking engine.

The definitions below are shallow embeddings of the TypeScript sources:
  - `TypeScriptASTParser.*` embeds src/frameworks/typescript.ts,
  - `SvelteKitParser.*` embeds the SvelteKit parser (the template splitter
    `processASTNode` / `processASTNodeRecursive` / `splitLargeTemplate` /
    `parseSvelteFile` from the variant that performs recursive template
    splitting, and `chunkTypeScriptFile` / `splitBySize` from
    src/frameworks/sveltekit.ts),
  - `Parser.*` embeds src/lib/parser.ts.

External collaborators are modelled as inputs: the TypeScript grammar and
the Svelte compiler appear as already-parsed syntax trees (or a parse
error), file contents appear as strings, and the `nanoid()` random id
generator appears as an explicit id-supply function.  JavaScript strings
are modelled as Lean strings (code points instead of UTF-16 units), and
JavaScript's `\s` whitespace class is modelled by `Char.isWhitespace`;
no claim depends on the difference.
-/

set_option autoImplicit false

namespace CodeGuardian

/-- Model of the JavaScript expression `s.slice(a, b)` for `a`, `b`
natural numbers: the characters from index `a` (inclusive) to `b`
(exclusive), empty when `b ≤ a`. -/
def jsSlice (s : String) (a b : Nat) : String :=
  String.mk ((s.data.drop a).take (b - a))

/-- Model of the JavaScript expression `arr.slice(a, b)` on arrays. -/
def jsArraySlice {α : Type} (l : List α) (a b : Nat) : List α :=
  (l.drop a).take (b - a)

/-- The size estimator `content.length / 4` used by the chunking engine
(`estimatedTokens` in `processASTNode`, `size` in `chunkTypeScriptFile`). -/
def estimateTokens (s : String) : ℚ := (s.length : ℚ) / 4

/-- Helper for `jsSplit`: splits the character list on every occurrence of
the separator `sh :: st`, scanning left to right, accumulating the current
piece in `acc`.  The `fuel` argument makes the recursion structural (each
scanned character consumes one unit, a matched separator consumes at least
one); callers pass the list's length, which is always sufficient, so the
out-of-fuel row is never reached from `jsSplit`. -/
def jsSplitCharsGo (sh : Char) (st : List Char) : Nat → List Char → List Char → List (List Char)
  | _, [], acc => [acc]
  | 0, l, acc => [acc ++ l]
  | fuel + 1, c :: rest, acc =>
    if c = sh ∧ rest.take st.length = st then
      acc :: jsSplitCharsGo sh st fuel (rest.drop st.length) []
    else
      jsSplitCharsGo sh st fuel rest (acc ++ [c])

/-- Model of the JavaScript expression `s.split(sep)` for a non-empty
literal separator (the separators used by the sources are `"\n"`,
`"\n## "`, `"\n# "` and `"/"`). -/
def jsSplit (sep : String) (s : String) : List String :=
  match sep.data with
  | [] => [s]
  | sh :: st => (jsSplitCharsGo sh st s.data.length s.data []).map String.mk

/-- Model of the JavaScript expression `s.trim()`. -/
def jsTrim (s : String) : String :=
  String.mk (((s.data.dropWhile Char.isWhitespace).reverse.dropWhile Char.isWhitespace).reverse)

/-- JavaScript truthiness of an optional string (`undefined` and `""` are
falsy). -/
def jsTruthyName : Option String → Bool
  | some s => !s.isEmpty
  | none => false

/-- Model of the JavaScript pattern `x?.name || 'anonymous'`. -/
def jsNameOr : Option String → String
  | some s => if s.isEmpty then "anonymous" else s
  | none => "anonymous"

/-- JavaScript truthiness of an optional number (`undefined` and `0` are
falsy); models the test `!node.start || !node.end`. -/
def jsFalsyNat : Option Nat → Bool
  | some n => n = 0
  | none => true

end CodeGuardian

namespace CodeGuardian

/-! ### The TypeScript AST as consumed by the extractors

The `@typescript-eslint/typescript-estree` grammar is an external
collaborator: its output is modelled as a tree of the node shapes that the
extractors inspect.  A successful parse is an `Except.ok` list of top-level
nodes; a parse failure (the grammar throwing) is `Except.error ()`. -/

/-- Initializer shape of a variable declarator, as inspected via
`declaration.init.type`. -/
inductive TSInit where
  | arrowFunctionExpr
  | functionExpr
  | otherInit
deriving DecidableEq, Repr

/-- A variable declarator: `name` models `declaration.id?.name` (with
`none` for an absent id and `some ""` for an empty name, both falsy in
JavaScript) and `init` models `declaration.init` (`none` when absent). -/
structure TSDeclarator where
  name : Option String
  init : Option TSInit
deriving DecidableEq, Repr

/-- A `MethodDefinition` member of a class body, as read by
`createMethodChunk` (`method.key?.name` and `method.loc`). -/
structure TSMethod where
  name : Option String
  startLine : Nat
  endLine : Nat
deriving DecidableEq, Repr

/-- Top-level TypeScript AST nodes, restricted to the shapes the two
extractors dispatch on; every unhandled node type is `otherNode`.  Class
bodies list only their `MethodDefinition` members, the only member shape
`createClassChunk` reads. -/
inductive TSNode where
  | importDecl (source : String) (startLine endLine : Nat)
  | functionDecl (name : Option String) (isAsync isGenerator : Bool) (startLine endLine : Nat)
  | interfaceDecl (name : Option String) (startLine endLine : Nat)
  | typeAliasDecl (name : Option String) (startLine endLine : Nat)
  | classDecl (name : Option String) (isAbstract : Bool) (superClass : Option String)
      (methods : List TSMethod) (startLine endLine : Nat)
  | varDecl (kind : String) (declarations : List TSDeclarator) (startLine endLine : Nat)
  | exportNamedDecl (declaration : Option TSNode) (startLine endLine : Nat)
  | exportDefaultDecl (startLine endLine : Nat)
  | otherNode (startLine endLine : Nat)

/-- The `node.loc.start.line` field. -/
def TSNode.startLine : TSNode → Nat
  | .importDecl _ s _ => s
  | .functionDecl _ _ _ s _ => s
  | .interfaceDecl _ s _ => s
  | .typeAliasDecl _ s _ => s
  | .classDecl _ _ _ _ s _ => s
  | .varDecl _ _ s _ => s
  | .exportNamedDecl _ s _ => s
  | .exportDefaultDecl s _ => s
  | .otherNode s _ => s

/-- The `node.loc.end.line` field. -/
def TSNode.endLine : TSNode → Nat
  | .importDecl _ _ e => e
  | .functionDecl _ _ _ _ e => e
  | .interfaceDecl _ _ e => e
  | .typeAliasDecl _ _ e => e
  | .classDecl _ _ _ _ _ e => e
  | .varDecl _ _ _ e => e
  | .exportNamedDecl _ _ e => e
  | .exportDefaultDecl _ e => e
  | .otherNode _ e => e

/-- Whether a declarator's initializer is a function or arrow-function
expression (the `isFunctionType` test of both extractors). -/
def TSDeclarator.hasFunctionInit (d : TSDeclarator) : Bool :=
  match d.init with
  | some .arrowFunctionExpr => true
  | some .functionExpr => true
  | _ => false

end CodeGuardian

namespace CodeGuardian.TypeScriptASTParser

/-- Construct metadata; the source builds a plain object whose keys differ
per construct kind, modelled as optional fields (absent key = `none`). -/
structure ConstructMetadata where
  isAsync : Option Bool := none
  isGenerator : Option Bool := none
  isAbstract : Option Bool := none
  superClass : Option (Option String) := none
  isArrowFunction : Option Bool := none
  isConst : Option Bool := none
  isExported : Option Bool := none
deriving DecidableEq, Repr

/-- The `ExtractedConstruct` interface of src/frameworks/typescript.ts
(`type` is renamed `ctype`, a Lean keyword clash). -/
structure ExtractedConstruct where
  ctype : String
  name : String
  content : String
  startLine : Nat
  endLine : Nat
  metadata : ConstructMetadata
deriving DecidableEq, Repr

/-- `TypeScriptASTParser.extractNodeContent`: the source lines spanning the
node, `lines.slice(startLine - 1, endLine).join('\n')`. -/
def extractNodeContent (node : TSNode) (lines : List String) : String :=
  String.intercalate "\n" (jsArraySlice lines (node.startLine - 1) node.endLine)

/-- `TypeScriptASTParser.extractFromNode`: constructs produced for one
top-level node.  Note the `VariableDeclaration` case pushes a construct
for every declarator with a truthy name; the function-initializer test
only selects the construct's `type` and metadata. -/
def extractFromNode (node : TSNode) (lines : List String) : List ExtractedConstruct :=
  match node with
  | .functionDecl name isAsync isGenerator s e =>
    [{ ctype := "function", name := jsNameOr name,
       content := extractNodeContent (.functionDecl name isAsync isGenerator s e) lines,
       startLine := s, endLine := e,
       metadata := { isAsync := some isAsync, isGenerator := some isGenerator } }]
  | .interfaceDecl name s e =>
    [{ ctype := "interface", name := jsNameOr name,
       content := extractNodeContent (.interfaceDecl name s e) lines,
       startLine := s, endLine := e, metadata := {} }]
  | .typeAliasDecl name s e =>
    [{ ctype := "interface", name := jsNameOr name,
       content := extractNodeContent (.typeAliasDecl name s e) lines,
       startLine := s, endLine := e, metadata := {} }]
  | .classDecl name isAbstract superClass methods s e =>
    [{ ctype := "class", name := jsNameOr name,
       content := extractNodeContent (.classDecl name isAbstract superClass methods s e) lines,
       startLine := s, endLine := e,
       metadata := { isAbstract := some isAbstract, superClass := some superClass } }]
  | .varDecl kind declarations s e =>
    declarations.filterMap fun d =>
      if jsTruthyName d.name then
        some { ctype := if d.hasFunctionInit then "function" else "variable",
               name := d.name.getD "",
               content := extractNodeContent (.varDecl kind declarations s e) lines,
               startLine := s, endLine := e,
               metadata := { isArrowFunction := some (d.init = some .arrowFunctionExpr),
                             isConst := some (kind = "const") } }
      else none
  | .exportNamedDecl (some d) _ _ =>
    (extractFromNode d lines).map fun c =>
      { c with metadata := { c.metadata with isExported := some true } }
  | _ => []

/-- Result shape of `TypeScriptASTParser.parseFile`.  The catch branch of
the source returns an object with an extra `content` property that is not
part of the declared return type; it is modelled by the `content` field
(`none` on the success path). -/
structure ParseFileResult where
  constructs : List ExtractedConstruct
  imports : List String
  exports : List String
  content : Option String
deriving DecidableEq, Repr

/-- The per-node loop of `TypeScriptASTParser.parseFile`: imports are
collected, constructs are extracted, and export wrappers push the marker
string `"export"`. -/
def parseFileGo (lines : List String) : List TSNode → List ExtractedConstruct × List String × List String
  | [] => ([], [], [])
  | n :: rest =>
    match n with
    | .importDecl src _ _ =>
      let (cs, is, es) := parseFileGo lines rest
      (cs, src :: is, es)
    | _ =>
      let ex := extractFromNode n lines
      let isExport :=
        match n with
        | .exportNamedDecl _ _ _ => true
        | .exportDefaultDecl _ _ => true
        | _ => false
      let (cs, is, es) := parseFileGo lines rest
      (ex ++ cs, is, if isExport then "export" :: es else es)

/-- `TypeScriptASTParser.parseFile`: the external grammar's outcome is the
`parseResult` input.  On a parse failure the catch branch returns empty
constructs, imports and exports plus the stray `content` property. -/
def parseFile (parseResult : Except Unit (List TSNode)) (content : String) : ParseFileResult :=
  match parseResult with
  | .error _ => { constructs := [], imports := [], exports := [], content := some content }
  | .ok body =>
    let lines := jsSplit "\n" content
    let (cs, is, es) := parseFileGo lines body
    { constructs := cs, imports := is, exports := es, content := none }

end CodeGuardian.TypeScriptASTParser

namespace CodeGuardian.Parser

/-- A chunk as recorded by src/lib/parser.ts together with the content it
stores.  `idKey` and `hashKey` are the strings passed to the external
`hash-it` function for the chunk's `id` and `hash` fields (the hash values
themselves are an external collaborator; no claim depends on them). -/
structure PChunk where
  idKey : String
  ctype : String
  hashKey : String
  granularity : String
  content : String
deriving DecidableEq, Repr

/-- `Parser.extractNodeContent`: identical to the TypeScript extractor's
copy, `lines.slice(node.loc.start.line - 1, node.loc.end.line).join('\n')`. -/
def extractNodeContent (node : TSNode) (lines : List String) : String :=
  String.intercalate "\n" (jsArraySlice lines (node.startLine - 1) node.endLine)

/-- `Parser.createFunctionChunk`. -/
def createFunctionChunk (node : TSNode) (name : Option String) (filePath : String)
    (lines : List String) : PChunk :=
  let functionName := jsNameOr name
  let content := extractNodeContent node lines
  { idKey := filePath ++ ":" ++ functionName, ctype := "function",
    hashKey := content, granularity := "function", content := content }

/-- `Parser.createTypeChunk`. -/
def createTypeChunk (node : TSNode) (name : Option String) (filePath : String)
    (lines : List String) : PChunk :=
  let typeName := jsNameOr name
  let content := extractNodeContent node lines
  { idKey := filePath ++ ":" ++ typeName, ctype := "type-definition",
    hashKey := content, granularity := "function", content := content }

/-- `Parser.createMethodChunk`. -/
def createMethodChunk (m : TSMethod) (filePath : String) (lines : List String)
    (className : String) : PChunk :=
  let methodName := jsNameOr m.name
  let content := String.intercalate "\n" (jsArraySlice lines (m.startLine - 1) m.endLine)
  { idKey := filePath ++ ":" ++ className ++ "." ++ methodName, ctype := "function",
    hashKey := content, granularity := "function", content := content }

/-- `Parser.createClassChunk`: the class chunk followed by one chunk per
`MethodDefinition` member. -/
def createClassChunk (node : TSNode) (name : Option String) (methods : List TSMethod)
    (filePath : String) (lines : List String) : List PChunk :=
  let className := jsNameOr name
  let content := extractNodeContent node lines
  { idKey := filePath ++ ":" ++ className, ctype := "class",
    hashKey := content, granularity := "function", content := content }
    :: methods.map fun m => createMethodChunk m filePath lines className

/-- `Parser.handleVariableDeclaration`: one function chunk per declarator
whose initializer is a function or arrow-function expression; every other
declarator is skipped.  Only ever invoked on a `VariableDeclaration` node
(other shapes return no chunk). -/
def handleVariableDeclaration (node : TSNode) (filePath : String)
    (lines : List String) : List PChunk :=
  match node with
  | .varDecl kind declarations s e =>
    declarations.filterMap fun d =>
      if d.hasFunctionInit then
        let functionName := jsNameOr d.name
        let content := extractNodeContent (.varDecl kind declarations s e) lines
        some { idKey := filePath ++ ":" ++ functionName, ctype := "function",
               hashKey := content, granularity := "function", content := content }
      else none
  | _ => []

mutual

/-- `Parser.extractFromAST` on one node of `ast.body`: dispatch through the
`nodeProcessors` table (unlisted node types are skipped). -/
def extractFromASTNode (node : TSNode) (filePath : String)
    (lines : List String) : List PChunk :=
  match node with
  | .functionDecl name isAsync isGenerator s e =>
    [createFunctionChunk (.functionDecl name isAsync isGenerator s e) name filePath lines]
  | .varDecl kind declarations s e =>
    handleVariableDeclaration (.varDecl kind declarations s e) filePath lines
  | .interfaceDecl name s e => [createTypeChunk (.interfaceDecl name s e) name filePath lines]
  | .typeAliasDecl name s e => [createTypeChunk (.typeAliasDecl name s e) name filePath lines]
  | .classDecl name isAbstract superClass methods s e =>
    createClassChunk (.classDecl name isAbstract superClass methods s e) name methods filePath lines
  | .exportNamedDecl (some d) _ _ => extractFromASTNode d filePath lines
  | _ => []

/-- `Parser.extractFromAST` over a whole `ast.body`, in source order. -/
def extractFromAST (body : List TSNode) (filePath : String)
    (lines : List String) : List PChunk :=
  match body with
  | [] => []
  | n :: rest => extractFromASTNode n filePath lines ++ extractFromAST rest filePath lines

end

/-- Model of the JavaScript expression `file.split('/').pop() || 'unknown'`
in `Parser.parseSimpleFile`. -/
def jsFileName (file : String) : String :=
  match (jsSplit "/" file).getLast? with
  | some s => if s.isEmpty then "unknown" else s
  | none => "unknown"

/-- `Parser.parseSimpleFile`: one whole-file chunk of the given type. -/
def parseSimpleFile (file : String) (ctype : String) (fileContent : String) : List PChunk :=
  [{ idKey := file ++ ":" ++ jsFileName file, ctype := ctype,
     hashKey := fileContent, granularity := "file", content := fileContent }]

/-- `Parser.parseTypeScriptFile`: the grammar outcome is the `parseResult`
input; a successful parse is fed to `extractFromAST`, a parse failure is
caught and degraded to `parseSimpleFile(file, 'documentation')`. -/
def parseTypeScriptFile (parseResult : Except Unit (List TSNode)) (file : String)
    (fileContent : String) : List PChunk :=
  match parseResult with
  | .ok body => extractFromAST body file (jsSplit "\n" fileContent)
  | .error _ => parseSimpleFile file "documentation" fileContent

end CodeGuardian.Parser

namespace CodeGuardian.SvelteKitParser

/-! ### Construct batching (`SvelteKitParser.chunkTypeScriptFile`)

The loop of src/frameworks/sveltekit.ts lines 161-189 accumulates
construct contents into `buffer` (joined with `"\n\n"` on flush) with the
hardcoded budget 1500 and the size estimator `content.length / 4`.  The
loop only ever appends to `results`, so it is written in emission style:
each call returns the chunks still to be emitted. -/

/-- The batching loop of `chunkTypeScriptFile`, emission style.  The state
is the pending `buffer` and the running `bufferSize`. -/
def chunkConstructContentsGo : List String → List String → ℚ → List String
  | [], buffer, _ =>
    if buffer.length > 0 then [String.intercalate "\n\n" buffer] else []
  | c :: rest, buffer, bufferSize =>
    let size := estimateTokens c
    if size > 1500 then
      (if buffer.length > 0 then [String.intercalate "\n\n" buffer] else [])
        ++ c :: chunkConstructContentsGo rest [] 0
    else if bufferSize + size > 1500 then
      String.intercalate "\n\n" buffer :: chunkConstructContentsGo rest [c] size
    else
      chunkConstructContentsGo rest (buffer ++ [c]) (bufferSize + size)

/-- The batcher applied to an ordered list of construct contents, starting
from the empty buffer (the entry state of `chunkTypeScriptFile`). -/
def chunkConstructContents (cs : List String) : List String :=
  chunkConstructContentsGo cs [] 0

/-- `SvelteKitParser.chunkTypeScriptFile` at content level: the construct
contents delivered by `TypeScriptASTParser.parseFile` are batched; the
source then wraps each resulting chunk content with a fresh `nanoid()` id
and the pattern metadata, which neither adds nor drops chunks. -/
def chunkTypeScriptFile (parseResult : Except Unit (List TSNode)) (content : String) :
    List String :=
  chunkConstructContents
    (((TypeScriptASTParser.parseFile parseResult content).constructs).map
      TypeScriptASTParser.ExtractedConstruct.content)

/-! Group-level view of the same batcher: instead of joining each flushed
buffer into one string, the buffers themselves are collected, so that the
provenance of every emitted chunk is visible.  `chunkConstructContentsGo`
is proved equal to mapping the join over these groups. -/

/-- The batching loop at group level. -/
def chunkGroupsGo : List String → List String → ℚ → List (List String)
  | [], buffer, _ => if buffer.length > 0 then [buffer] else []
  | c :: rest, buffer, bufferSize =>
    let size := estimateTokens c
    if size > 1500 then
      (if buffer.length > 0 then [buffer] else []) ++ [c] :: chunkGroupsGo rest [] 0
    else if bufferSize + size > 1500 then
      buffer :: chunkGroupsGo rest [c] size
    else
      chunkGroupsGo rest (buffer ++ [c]) (bufferSize + size)

/-- The groups of construct contents merged into each emitted chunk, in
emission order. -/
def chunkGroups (cs : List String) : List (List String) :=
  chunkGroupsGo cs [] 0

/-- Total estimated size of a buffer of construct contents. -/
def totalEstimate (g : List String) : ℚ := (g.map estimateTokens).sum

/-- Boundary relation between adjacent emitted groups: either the earlier
group is an oversized singleton (flushed unconditionally), or the later
group starts with the item whose arrival flushed the earlier one - an item
that is itself oversized or would have overflowed the budget. -/
def groupBoundary (g g' : List String) : Prop :=
  (∃ c, g = [c] ∧ estimateTokens c > 1500) ∨
    (∃ c, g'.head? = some c ∧
      (estimateTokens c > 1500 ∨ totalEstimate g + estimateTokens c > 1500))

/-! ### Line-based template splitting (`SvelteKitParser.splitBySize`)

src/frameworks/sveltekit.ts lines 202-224: greedy batching of the lines of
a template, written in emission style like the construct batcher.  Note
that its comparisons are on raw character counts (`line.length`), not on
the `length / 4` estimator. -/

/-- The loop of `splitBySize`: flush when `currentSize + line.length`
exceeds `maxChars` and the current buffer is non-empty; otherwise append
the line and add `line.length + 1` to the running size. -/
def splitBySizeGo (maxChars : ℚ) : List String → List String → ℚ → List String
  | [], current, _ =>
    if current.length > 0 then [String.intercalate "\n" current] else []
  | line :: rest, current, currentSize =>
    if currentSize + (line.length : ℚ) > maxChars ∧ current.length > 0 then
      String.intercalate "\n" current :: splitBySizeGo maxChars rest [line] (line.length : ℚ)
    else
      splitBySizeGo maxChars rest (current ++ [line]) (currentSize + (line.length : ℚ) + 1)

/-- `SvelteKitParser.splitBySize`. -/
def splitBySize (text : String) (maxChars : ℚ) : List String :=
  splitBySizeGo maxChars (jsSplit "\n" text) [] 0

/-- Modelled from the spec: the variant of `splitBySize` that the claim
about a uniform size estimator describes - identical control flow, but
every size of a line is computed with the character-count/4 estimator
(`estimateTokens`) instead of the raw character count.  Used only to
compare the source's `splitBySize` against the spec's words. -/
def splitBySizeTokenUniformGo (maxChars : ℚ) : List String → List String → ℚ → List String
  | [], current, _ =>
    if current.length > 0 then [String.intercalate "\n" current] else []
  | line :: rest, current, currentSize =>
    if currentSize + estimateTokens line > maxChars ∧ current.length > 0 then
      String.intercalate "\n" current
        :: splitBySizeTokenUniformGo maxChars rest [line] (estimateTokens line)
    else
      splitBySizeTokenUniformGo maxChars rest (current ++ [line])
        (currentSize + estimateTokens line + 1)

/-- Modelled from the spec: entry point of the uniform-estimator variant. -/
def splitBySizeTokenUniform (text : String) (maxChars : ℚ) : List String :=
  splitBySizeTokenUniformGo maxChars (jsSplit "\n" text) [] 0

end CodeGuardian.SvelteKitParser

namespace CodeGuardian

/-! ### The Svelte template AST and the recursive template splitter

The Svelte compiler is an external collaborator; its template tree is
modelled by `TNode`.  A node carries the fields the splitter reads: its
`type`, its `name` (meaningful for elements and components), its `start`
and `end` character offsets (optional, mirroring absent fields; JavaScript
treats both `undefined` and `0` as falsy), and its `children` (a node
without a children field behaves exactly like one with an empty array in
`processASTNodeRecursive`, so both are modelled as `[]`).  The
block-specific branch fields (`consequent`, `alternate`, ...) and the
attribute list only feed the candidate's metadata object
(`extractComponentsFromASTNode`, `extractAttributes`, `hasSlots`,
`hasBindings`, `extractExpression`), which no claim refers to; they are
not modelled. -/

/-- The `node.type` tags distinguished by `processASTNode`'s switch. -/
inductive TNodeKind where
  | Element
  | Component
  | IfBlock
  | EachBlock
  | AwaitBlock
  | KeyBlock
  | Text
  | OtherKind (raw : String)
deriving DecidableEq, Repr

/-- A template tree node (`nstart`/`nend` model `node.start`/`node.end`;
`end` is a Lean keyword). -/
inductive TNode where
  | mk (kind : TNodeKind) (name : String) (nstart : Option Nat) (nend : Option Nat)
      (children : List TNode)

/-- The `node.type` field. -/
def TNode.kind : TNode → TNodeKind
  | .mk k _ _ _ _ => k

/-- The `node.name` field. -/
def TNode.name : TNode → String
  | .mk _ n _ _ _ => n

/-- The `node.start` field. -/
def TNode.nstart : TNode → Option Nat
  | .mk _ _ s _ _ => s

/-- The `node.end` field. -/
def TNode.nend : TNode → Option Nat
  | .mk _ _ _ e _ => e

/-- The `node.children` field. -/
def TNode.children : TNode → List TNode
  | .mk _ _ _ _ cs => cs

/-- The candidate chunk computed by `processASTNode` for one node.  The
`metadata` and `components` fields of the source candidate (attribute
maps, nested component names, block expressions) are not modelled; no
claim refers to them.  `type` is renamed `ctype`. -/
structure TemplateCandidate where
  content : String
  ctype : String
  estimatedTokens : ℚ
deriving DecidableEq, Repr

end CodeGuardian

namespace CodeGuardian.SvelteKitParser

/-- `SvelteKitParser.processASTNode`: `null` (here `none`) when `start` or
`end` is falsy, otherwise the candidate for the node's source slice.  The
block type strings are the source's
`'block-' + node.type.toLowerCase().replace('block', '')`.  A pure text
node whose estimate is below 50 yields `null`. -/
def processASTNode (node : TNode) (sourceContent : String) : Option TemplateCandidate :=
  if jsFalsyNat node.nstart ∨ jsFalsyNat node.nend then none
  else
    let s := node.nstart.getD 0
    let e := node.nend.getD 0
    let content := jsSlice sourceContent s e
    let estimatedTokens := estimateTokens content
    match node.kind with
    | .Element => some { content, ctype := "element-" ++ node.name, estimatedTokens }
    | .Component => some { content, ctype := "component-usage", estimatedTokens }
    | .IfBlock => some { content, ctype := "block-if", estimatedTokens }
    | .EachBlock => some { content, ctype := "block-each", estimatedTokens }
    | .AwaitBlock => some { content, ctype := "block-await", estimatedTokens }
    | .KeyBlock => some { content, ctype := "block-key", estimatedTokens }
    | .Text =>
      if estimatedTokens < 50 then none
      else some { content, ctype := "text-content", estimatedTokens }
    | .OtherKind raw => some { content, ctype := "unknown-" ++ raw, estimatedTokens }

mutual

/-- `SvelteKitParser.processASTNodeRecursive`: a node whose candidate is
`null` contributes nothing; a candidate within budget is emitted as is; an
oversized candidate is replaced by the recursively collected child chunks
when they number more than one, and otherwise emitted as is (the source
logs a warning in that fallback). -/
def processASTNodeRecursive (node : TNode) (sourceContent : String) (maxTokens : ℚ) :
    List TemplateCandidate :=
  match node with
  | .mk kind name nstart nend children =>
    match processASTNode (.mk kind name nstart nend children) sourceContent with
    | none => []
    | some nodeResult =>
      if nodeResult.estimatedTokens ≤ maxTokens then [nodeResult]
      else
        let childChunks := processASTChildren children sourceContent maxTokens
        if children.length > 0 ∧ childChunks.length > 1 then childChunks
        else [nodeResult]

/-- The child loop of `processASTNodeRecursive`, in document order. -/
def processASTChildren (l : List TNode) (sourceContent : String) (maxTokens : ℚ) :
    List TemplateCandidate :=
  match l with
  | [] => []
  | c :: cs =>
    processASTNodeRecursive c sourceContent maxTokens
      ++ processASTChildren cs sourceContent maxTokens

end

end CodeGuardian.SvelteKitParser

namespace CodeGuardian

/-- The root of a parsed Svelte template: `svelteAst.html`, whose
`children` field may be absent (`none`). -/
structure SvelteHtmlRoot where
  children : Option (List TNode)

/-- The parts of the Svelte compiler's output that the template portion of
`parseSvelteFile` reads (`svelteAst.html`; the `instance` and `module`
script nodes feed only the script chunks, outside the cited region). -/
structure SvelteAst where
  html : Option SvelteHtmlRoot

/-- A chunk returned by `splitLargeTemplate`: either a candidate produced
by `processASTNodeRecursive` (with its estimate) or the whole-template
fallback object, which carries no `estimatedTokens` field (`none`). -/
structure TemplateChunk where
  content : String
  ctype : String
  estimatedTokens : Option ℚ
deriving DecidableEq, Repr

/-- A chunk emitted by the template portion of `parseSvelteFile`: the
`nanoid()` id, the chunk type, and the content.  The metadata object
(filePath, section marker, pattern metadata) is constant per run and not
modelled. -/
structure SvelteOutChunk where
  id : String
  ctype : String
  content : String
deriving DecidableEq, Repr

end CodeGuardian

namespace CodeGuardian.SvelteKitParser

/-- `SvelteKitParser.splitLargeTemplate` (default budget 1000): the
whole-template fallback when the tree has no `html`/`children`, otherwise
the chunks collected over the root's children, falling back to the whole
template when that collection is empty. -/
def splitLargeTemplate (templateContent : String) (svelteAst : SvelteAst)
    (maxTokens : ℚ) : List TemplateChunk :=
  match svelteAst.html with
  | none => [{ content := templateContent, ctype := "template", estimatedTokens := none }]
  | some root =>
    match root.children with
    | none => [{ content := templateContent, ctype := "template", estimatedTokens := none }]
    | some children =>
      let chunks := (processASTChildren children templateContent maxTokens).map
        fun r => { content := r.content, ctype := r.ctype,
                   estimatedTokens := some r.estimatedTokens : TemplateChunk }
      if chunks.length > 0 then chunks
      else [{ content := templateContent, ctype := "template", estimatedTokens := none }]

/-- The template portion of `parseSvelteFile` (the cited lines 98-120 of
the recursive-splitting parser): each chunk of
`splitLargeTemplate content ast` (called with the default budget 1000) is
wrapped with a fresh `nanoid()` id - modelled by the explicit `idSupply`
stream, consumed in emission order - and typed with the pattern's semantic
label when it is a whole-template chunk, `'component'` otherwise. -/
def parseSvelteFileTemplateChunks (idSupply : Nat → String) (patternSemantic : String)
    (content : String) (svelteAst : SvelteAst) : List SvelteOutChunk :=
  (splitLargeTemplate content svelteAst 1000).enum.map fun p =>
    { id := idSupply p.1,
      ctype := if p.2.ctype = "template" then patternSemantic else "component",
      content := p.2.content }

end CodeGuardian.SvelteKitParser

namespace CodeGuardian.Parser

/-- Helper for `jsFirstHeaderMatch`: the largest backtracking position
`j' ≤ j` in `t` at which a character exists and is not a newline (the
greedy `\s*` giving characters back to `.+`). -/
def findCaptureStart (t : List Char) : Nat → Option Nat
  | 0 =>
    match t with
    | c :: _ => if c ≠ '\n' then some 0 else none
    | [] => none
  | j + 1 =>
    match t.drop (j + 1) with
    | c :: _ => if c ≠ '\n' then some (j + 1) else findCaptureStart t j
    | [] => findCaptureStart t j

/-- Model of the JavaScript expression `s.match(/^#+\s*(.+)/)`, returning
the captured group: one-or-more leading hashes, then greedy whitespace,
then one-or-more non-newline characters.  Backtracking first gives
whitespace back to the capture, then gives hashes back (a hash is a valid
first capture character). -/
def jsFirstHeaderMatch (s : String) : Option String :=
  let cs := s.data
  let imax := (cs.takeWhile (· = '#')).length
  if imax = 0 then none
  else
    let t := cs.drop imax
    let wmax := (t.takeWhile Char.isWhitespace).length
    match findCaptureStart t wmax with
    | some j => some (String.mk ((t.drop j).takeWhile (· ≠ '\n')))
    | none =>
      if imax > 1 then some (String.mk ((cs.drop (imax - 1)).takeWhile (· ≠ '\n')))
      else none

/-- Model of the JavaScript expression
`line.replace(/^#+\s*/, '').trim()` from `processHeaderSections`. -/
def stripHeaderMarks (line : String) : String :=
  if line.startsWith "#" then
    jsTrim (String.mk ((line.data.dropWhile (· = '#')).dropWhile Char.isWhitespace))
  else jsTrim line

/-- `Parser.processHeaderSections`: one chunk per section, unconditionally
(no size comparison of any kind).  The first section keeps its text as is
when it does not start with `'#'`; every other section is re-prefixed with
the header marker and its title. -/
def processHeaderSections (sections : List String) (filename : String)
    (headerPrefix : String) : List PChunk :=
  sections.enum.map fun p =>
    let i := p.1
    let sec := p.2
    let lines := jsSplit "\n" sec
    if i = 0 ∧ ¬sec.startsWith "#" then
      let title :=
        match jsFirstHeaderMatch sec with
        | some t => t
        | none => "Introduction"
      { idKey := "knowledge:" ++ filename ++ ":" ++ title, ctype := "documentation",
        hashKey := sec, granularity := "component", content := sec }
    else
      let title := stripHeaderMarks (lines.headD "")
      let content :=
        headerPrefix ++ " " ++ title ++ "\n" ++ String.intercalate "\n" lines.tail
      { idKey := "knowledge:" ++ filename ++ ":" ++ title, ctype := "documentation",
        hashKey := content, granularity := "component", content := content }

/-- `Parser.parseLlmsTxt`: split on `'\n## '` boundaries, discard blank
sections; when at most one section remains, retry with `'\n# '`; when that
also leaves at most one section, emit a single whole-document chunk with
`granularity: 'file'`.  There is no paragraph-level splitting. -/
def parseLlmsTxt (fileContent : String) (filename : String) : List PChunk :=
  let sections := (jsSplit "\n## " fileContent).filter fun s => !(jsTrim s).isEmpty
  if sections.length ≤ 1 then
    let singleSections := (jsSplit "\n# " fileContent).filter fun s => !(jsTrim s).isEmpty
    if singleSections.length ≤ 1 then
      [{ idKey := "knowledge:" ++ filename, ctype := "documentation",
         hashKey := fileContent, granularity := "file", content := fileContent }]
    else processHeaderSections singleSections filename "#"
  else processHeaderSections sections filename "##"

end CodeGuardian.Parser

namespace CodeGuardian

/-- Characters of `bigKnowledgeDoc`: two paragraphs of 2050 characters
each, separated by a blank line, with no header marker anywhere. -/
def bigKnowledgeList : List Char :=
  List.replicate 2050 'a' ++ '\n' :: '\n' :: List.replicate 2050 'b'

/-- A concrete knowledge document used to test `parseLlmsTxt`: two
markdown paragraphs of 2050 characters each (no header lines at all), so
the document exceeds the spec's 4000-character knowledge budget while each
paragraph alone stays under it. -/
def bigKnowledgeDoc : String := String.mk bigKnowledgeList

end CodeGuardian

namespace CodeGuardian

/-! ### Proof development -/

open SvelteKitParser

theorem intercalate_singleton (sep a : String) : String.intercalate sep [a] = a := rfl

theorem totalEstimate_nil : totalEstimate [] = 0 := by
  simp [totalEstimate]

theorem totalEstimate_singleton (c : String) : totalEstimate [c] = estimateTokens c := by
  simp [totalEstimate]

theorem totalEstimate_append (a b : List String) :
    totalEstimate (a ++ b) = totalEstimate a + totalEstimate b := by
  simp [totalEstimate]

/-- The source batcher equals the group-level batcher followed by joining
each group with the separator used at flush time. -/
theorem chunkConstructContentsGo_eq_map (cs : List String) : ∀ buffer bsz,
    chunkConstructContentsGo cs buffer bsz
      = (chunkGroupsGo cs buffer bsz).map (String.intercalate "\n\n") := by
  induction cs with
  | nil =>
    intro buffer bsz
    by_cases h : buffer.length > 0 <;>
      simp [chunkConstructContentsGo, chunkGroupsGo, h]
  | cons c rest ih =>
    intro buffer bsz
    by_cases h1 : estimateTokens c > 1500
    · by_cases h : buffer.length > 0 <;>
        simp [chunkConstructContentsGo, chunkGroupsGo, h1, h, ih, intercalate_singleton]
    · by_cases h2 : bsz + estimateTokens c > 1500 <;>
        simp [chunkConstructContentsGo, chunkGroupsGo, h1, h2, ih]

/-- Flattening the emitted groups recovers the pending buffer followed by
the remaining input, in order. -/
theorem chunkGroupsGo_flatten (cs : List String) : ∀ buffer bsz,
    (chunkGroupsGo cs buffer bsz).flatten = buffer ++ cs := by
  induction cs with
  | nil =>
    intro buffer bsz
    by_cases h : buffer.length > 0
    · simp [chunkGroupsGo, h]
    · have : buffer = [] := List.length_eq_zero.mp (by omega)
      simp [chunkGroupsGo, h, this]
  | cons c rest ih =>
    intro buffer bsz
    by_cases h1 : estimateTokens c > 1500
    · by_cases h : buffer.length > 0
      · simp [chunkGroupsGo, h1, h, ih]
      · have : buffer = [] := List.length_eq_zero.mp (by omega)
        simp [chunkGroupsGo, h1, h, this, ih]
    · by_cases h2 : bsz + estimateTokens c > 1500
      · simp [chunkGroupsGo, h1, h2, ih]
      · simp [chunkGroupsGo, h1, h2, ih]

/-- With a non-empty pending buffer, the first emitted group extends that
buffer. -/
theorem chunkGroupsGo_cons (cs : List String) : ∀ buffer bsz, buffer ≠ [] →
    ∃ s t, chunkGroupsGo cs buffer bsz = (buffer ++ s) :: t := by
  induction cs with
  | nil =>
    intro buffer bsz hne
    refine ⟨[], [], ?_⟩
    have h : buffer.length > 0 := List.length_pos.mpr hne
    simp [chunkGroupsGo, h]
  | cons c rest ih =>
    intro buffer bsz hne
    have h : buffer.length > 0 := List.length_pos.mpr hne
    by_cases h1 : estimateTokens c > 1500
    · exact ⟨[], [c] :: chunkGroupsGo rest [] 0, by simp [chunkGroupsGo, h1, h]⟩
    · by_cases h2 : bsz + estimateTokens c > 1500
      · exact ⟨[], chunkGroupsGo rest [c] (estimateTokens c), by simp [chunkGroupsGo, h1, h2]⟩
      · obtain ⟨s, t, hst⟩ := ih (buffer ++ [c]) (bsz + estimateTokens c) (by simp)
        exact ⟨[c] ++ s, t, by simp [chunkGroupsGo, h1, h2, hst]⟩

/-- Structural invariant of every emitted group: groups are non-empty, an
oversized item only ever appears alone in its group, and a group is either
an oversized singleton or fits the budget in total. -/
theorem chunkGroupsGo_inv (cs : List String) : ∀ buffer bsz g,
    (∀ c ∈ buffer, estimateTokens c ≤ 1500) → totalEstimate buffer ≤ 1500 →
    bsz = totalEstimate buffer → g ∈ chunkGroupsGo cs buffer bsz →
    g ≠ [] ∧ (∀ c ∈ g, 1500 < estimateTokens c → g = [c]) ∧
      ((∃ c, g = [c] ∧ 1500 < estimateTokens c) ∨ totalEstimate g ≤ 1500) := by
  induction cs with
  | nil =>
    intro buffer bsz g hall htot _ hg
    by_cases h : buffer.length > 0
    · simp [chunkGroupsGo, h] at hg
      subst hg
      exact ⟨List.length_pos.mp h, fun c hc hover => absurd (hall c hc) (by linarith),
        Or.inr htot⟩
    · simp [chunkGroupsGo, h] at hg
  | cons c rest ih =>
    intro buffer bsz g hall htot hbsz hg
    by_cases h1 : estimateTokens c > 1500
    · by_cases h : buffer.length > 0 <;>
        simp [chunkGroupsGo, h1, h] at hg
      · rcases hg with hg | hg | hg
        · subst hg
          exact ⟨List.length_pos.mp h, fun x hx hover => absurd (hall x hx) (by linarith),
            Or.inr htot⟩
        · subst hg
          exact ⟨by simp, fun x hx _ => by simp_all, Or.inl ⟨c, rfl, h1⟩⟩
        · exact ih [] 0 g (by simp) (by simp [totalEstimate_nil]) (by simp [totalEstimate_nil]) hg
      · rcases hg with hg | hg
        · subst hg
          exact ⟨by simp, fun x hx _ => by simp_all, Or.inl ⟨c, rfl, h1⟩⟩
        · exact ih [] 0 g (by simp) (by simp [totalEstimate_nil]) (by simp [totalEstimate_nil]) hg
    · by_cases h2 : bsz + estimateTokens c > 1500
      · simp [chunkGroupsGo, h1, h2] at hg
        rcases hg with hg | hg
        · subst hg
          have hne : g ≠ [] := by
            intro hb
            rw [hb, totalEstimate_nil] at hbsz
            rw [hbsz] at h2
            simp at h2
            linarith
          exact ⟨hne, fun x hx hover => absurd (hall x hx) (by linarith), Or.inr htot⟩
        · refine ih [c] (estimateTokens c) g ?_ ?_ ?_ hg
          · intro x hx
            simp at hx
            subst hx
            linarith
          · rw [totalEstimate_singleton]; linarith
          · rw [totalEstimate_singleton]
      · simp [chunkGroupsGo, h1, h2] at hg
        refine ih (buffer ++ [c]) (bsz + estimateTokens c) g ?_ ?_ ?_ hg
        · intro x hx
          rcases List.mem_append.mp hx with hx | hx
          · exact hall x hx
          · simp at hx; subst hx; linarith
        · rw [totalEstimate_append, totalEstimate_singleton, ← hbsz]; linarith
        · rw [totalEstimate_append, totalEstimate_singleton, hbsz]

/-- Greedy maximality: adjacent emitted groups are separated exactly at an
item that was oversized or would have overflowed the budget. -/
theorem chunkGroupsGo_chain (cs : List String) : ∀ buffer bsz,
    (∀ c ∈ buffer, estimateTokens c ≤ 1500) → totalEstimate buffer ≤ 1500 →
    bsz = totalEstimate buffer →
    List.Chain' groupBoundary (chunkGroupsGo cs buffer bsz) := by
  induction cs with
  | nil =>
    intro buffer bsz _ _ _
    by_cases h : buffer.length > 0 <;> simp [chunkGroupsGo, h]
  | cons c rest ih =>
    intro buffer bsz hall htot hbsz
    by_cases h1 : estimateTokens c > 1500
    · have htail : List.Chain' groupBoundary ([c] :: chunkGroupsGo rest [] 0) := by
        refine List.chain'_cons'.mpr ⟨?_, ?_⟩
        · intro y _
          exact Or.inl ⟨c, rfl, h1⟩
        · exact ih [] 0 (by simp) (by simp [totalEstimate_nil]) (by simp [totalEstimate_nil])
      by_cases h : buffer.length > 0
      · have hstep : groupBoundary buffer [c] := Or.inr ⟨c, rfl, Or.inl h1⟩
        have : List.Chain' groupBoundary (buffer :: [c] :: chunkGroupsGo rest [] 0) := by
          refine List.chain'_cons'.mpr ⟨?_, htail⟩
          intro y hy
          simp at hy
          subst hy
          exact hstep
        simpa [chunkGroupsGo, h1, h] using this
      · simpa [chunkGroupsGo, h1, h] using htail
    · by_cases h2 : bsz + estimateTokens c > 1500
      · have hrec : List.Chain' groupBoundary (chunkGroupsGo rest [c] (estimateTokens c)) := by
          refine ih [c] (estimateTokens c) ?_ ?_ ?_
          · intro x hx
            simp at hx
            subst hx
            linarith
          · rw [totalEstimate_singleton]; linarith
          · rw [totalEstimate_singleton]
        have : List.Chain' groupBoundary (buffer :: chunkGroupsGo rest [c] (estimateTokens c)) := by
          refine List.chain'_cons'.mpr ⟨?_, hrec⟩
          intro y hy
          obtain ⟨s, t, hst⟩ := chunkGroupsGo_cons rest [c] (estimateTokens c) (by simp)
          rw [hst] at hy
          simp at hy
          subst hy
          refine Or.inr ⟨c, by simp, Or.inr ?_⟩
          rw [← hbsz]; linarith
        simpa [chunkGroupsGo, h1, h2] using this
      · have := ih (buffer ++ [c]) (bsz + estimateTokens c)
          (by
            intro x hx
            rcases List.mem_append.mp hx with hx | hx
            · exact hall x hx
            · simp at hx; subst hx; linarith)
          (by rw [totalEstimate_append, totalEstimate_singleton, ← hbsz]; linarith)
          (by rw [totalEstimate_append, totalEstimate_singleton, hbsz])
        simpa [chunkGroupsGo, h1, h2] using this

/-- C4: the construct batcher accumulates items into a buffer only while
the running total stays within the budget (every emitted group either fits
the budget or is an oversized singleton), an item whose own size exceeds
the budget is always emitted as its own singleton chunk and never shares a
group with any neighbor, and adjacent groups are separated exactly at an
item that was oversized or would have overflowed the buffer
(`groupBoundary`); the emitted chunks are precisely these groups joined in
order. -/
theorem claim_C4 (cs : List String) :
    chunkConstructContents cs = (chunkGroups cs).map (String.intercalate "\n\n")
    ∧ (∀ g ∈ chunkGroups cs,
        g ≠ [] ∧ (∀ c ∈ g, 1500 < estimateTokens c → g = [c]) ∧
          ((∃ c, g = [c] ∧ 1500 < estimateTokens c) ∨ totalEstimate g ≤ 1500))
    ∧ List.Chain' groupBoundary (chunkGroups cs) := by
  refine ⟨chunkConstructContentsGo_eq_map cs [] 0, ?_, ?_⟩
  · intro g hg
    exact chunkGroupsGo_inv cs [] 0 g (by simp) (by simp [totalEstimate_nil])
      totalEstimate_nil.symm hg
  · exact chunkGroupsGo_chain cs [] 0 (by simp) (by simp [totalEstimate_nil])
      totalEstimate_nil.symm

/-- C4 witness: the batcher evaluated on a concrete input, with the
budget invariant instantiated on the emitted group. -/
theorem claim_C4_witness :
    chunkConstructContents ["a", "bb"] = ["a\n\nbb"]
    ∧ totalEstimate ["a", "bb"] ≤ 1500 := by
  have h := claim_C4 ["a", "bb"]
  have hg : chunkGroups ["a", "bb"] = [["a", "bb"]] := by
    norm_num [chunkGroups, chunkGroupsGo, estimateTokens, String.length]
  constructor
  · rw [h.1, hg]
    decide
  · have hmem : ["a", "bb"] ∈ chunkGroups ["a", "bb"] := by
      rw [hg]
      exact List.mem_singleton_self _
    rcases (h.2.1 _ hmem).2.2 with ⟨c, hc, _⟩ | hle
    · exact absurd hc (by simp)
    · exact hle

/-- C5: concatenating the emitted chunks in emission order yields the
construct contents in exactly their original input order - flattening the
chunk groups recovers the input with nothing dropped, duplicated or
reordered, and each emitted chunk is its group joined with the
separator. -/
theorem claim_C5 (cs : List String) :
    (chunkGroups cs).flatten = cs
    ∧ chunkConstructContents cs = (chunkGroups cs).map (String.intercalate "\n\n") :=
  ⟨by simpa using chunkGroupsGo_flatten cs [] 0, chunkConstructContentsGo_eq_map cs [] 0⟩

/-- C5 witness: order preservation evaluated on a concrete input. -/
theorem claim_C5_witness : (chunkGroups ["x", "y"]).flatten = ["x", "y"] :=
  (claim_C5 ["x", "y"]).1

theorem processASTChildren_eq_flatten (l : List TNode) (src : String) (maxT : ℚ) :
    processASTChildren l src maxT
      = (l.map fun c => processASTNodeRecursive c src maxT).flatten := by
  induction l with
  | nil => simp [processASTChildren]
  | cons c cs ih => simp [processASTChildren, ih]

/-- C1: for a node whose candidate is oversized, the splitter recurses
into every child in document order and collects their chunks; when that
recursion yields more than one chunk the parent's own candidate is
replaced by exactly those child chunks, and when it yields one chunk or
none (in particular for a childless node) the parent's original oversized
candidate is emitted as the only chunk. -/
theorem claim_C1 (node : TNode) (src : String) (maxT : ℚ) (r : TemplateCandidate)
    (hcand : SvelteKitParser.processASTNode node src = some r)
    (hover : maxT < r.estimatedTokens) :
    processASTChildren node.children src maxT
        = (node.children.map fun c => processASTNodeRecursive c src maxT).flatten
    ∧ processASTNodeRecursive node src maxT =
        (if 0 < node.children.length ∧ 1 < (processASTChildren node.children src maxT).length
         then processASTChildren node.children src maxT
         else [r]) := by
  refine ⟨processASTChildren_eq_flatten _ _ _, ?_⟩
  cases node with
  | mk kind name ns ne children =>
    simp only [TNode.children]
    simp only [processASTNodeRecursive, hcand]
    rw [if_neg (not_le.mpr hover)]

/-- C1 witness: an oversized childless element node is emitted as exactly
its own single oversized candidate. -/
theorem claim_C1_witness :
    processASTNodeRecursive (.mk .Element "div" (some 1) (some 9) []) "aaaaaaaaaa" 1 =
      [{ content := "aaaaaaaa", ctype := "element-div", estimatedTokens := 2 }] := by
  have h := claim_C1 (.mk .Element "div" (some 1) (some 9) []) "aaaaaaaaaa" 1
    { content := "aaaaaaaa", ctype := "element-div", estimatedTokens := 2 }
    (by
      norm_num [SvelteKitParser.processASTNode, estimateTokens, jsSlice, jsFalsyNat,
        TNode.nstart, TNode.nend, TNode.kind, TNode.name, String.length]
      decide)
    (by norm_num)
  simpa [TNode.children, processASTChildren] using h.2

/-- C8: a pure text node whose estimated slice size is below the minimum
threshold of 50 yields no candidate and contributes no chunk at all. -/
theorem claim_C8 (node : TNode) (src : String) (maxT : ℚ)
    (hkind : node.kind = .Text)
    (hsmall : ∀ s e, node.nstart = some s → node.nend = some e →
        estimateTokens (jsSlice src s e) < 50) :
    SvelteKitParser.processASTNode node src = none
    ∧ processASTNodeRecursive node src maxT = [] := by
  cases node with
  | mk kind name ns ne children =>
    simp only [TNode.kind] at hkind
    subst hkind
    simp only [TNode.nstart, TNode.nend] at hsmall
    have hnone : SvelteKitParser.processASTNode (.mk .Text name ns ne children) src = none := by
      cases ns with
      | none => simp [SvelteKitParser.processASTNode, jsFalsyNat, TNode.nstart]
      | some s =>
        cases ne with
        | none => simp [SvelteKitParser.processASTNode, jsFalsyNat, TNode.nstart, TNode.nend]
        | some e =>
          by_cases hs : s = 0
          · simp [SvelteKitParser.processASTNode, jsFalsyNat, TNode.nstart, TNode.nend, hs]
          · by_cases he : e = 0
            · simp [SvelteKitParser.processASTNode, jsFalsyNat, TNode.nstart, TNode.nend, he]
            · have hlt := hsmall s e rfl rfl
              simp [SvelteKitParser.processASTNode, jsFalsyNat, TNode.nstart, TNode.nend,
                TNode.kind, hs, he, hlt]
    exact ⟨hnone, by simp [processASTNodeRecursive, hnone]⟩

/-- C8 witness: a four-character text node (estimate 1, below the
threshold 50) is dropped. -/
theorem claim_C8_witness :
    processASTNodeRecursive (.mk .Text "" (some 1) (some 5) []) "aaaaaaa" 1000 = [] := by
  have h := claim_C8 (.mk .Text "" (some 1) (some 5) []) "aaaaaaa" 1000 rfl ?_
  · exact h.2
  · intro s e hs he
    simp only [TNode.nstart, Option.some.injEq] at hs
    simp only [TNode.nend, Option.some.injEq] at he
    subst hs
    subst he
    norm_num [estimateTokens, jsSlice, String.length]

/-- C10: a template node whose `start` or `end` offset is absent or zero
(both falsy in JavaScript) yields no candidate, and the splitter does not
recurse into its children - its whole subtree contributes no chunk. -/
theorem claim_C10 (node : TNode) (src : String) (maxT : ℚ)
    (h : node.nstart = none ∨ node.nstart = some 0 ∨ node.nend = none ∨ node.nend = some 0) :
    SvelteKitParser.processASTNode node src = none
    ∧ processASTNodeRecursive node src maxT = [] := by
  cases node with
  | mk kind name ns ne children =>
    simp only [TNode.nstart, TNode.nend] at h
    have hnone : SvelteKitParser.processASTNode (.mk kind name ns ne children) src = none := by
      rcases h with h | h | h | h <;> subst h <;>
        simp [SvelteKitParser.processASTNode, jsFalsyNat, TNode.nstart, TNode.nend]
    exact ⟨hnone, by simp [processASTNodeRecursive, hnone]⟩

/-- C10 witness: a large element node starting at offset 0 is silently
dropped together with its child. -/
theorem claim_C10_witness :
    processASTNodeRecursive
      (.mk .Element "div" (some 0) (some 8) [.mk .Element "p" (some 1) (some 6) []])
      "abcdefgh" 1000 = [] :=
  (claim_C10 (.mk .Element "div" (some 0) (some 8) [.mk .Element "p" (some 1) (some 6) []])
    "abcdefgh" 1000 (Or.inr (Or.inl rfl))).2

theorem filterMap_ite {α β : Type} (p : α → Bool) (g : α → β) (l : List α) :
    (l.filterMap fun a => if p a then some (g a) else none) = (l.filter p).map g := by
  induction l with
  | nil => rfl
  | cons a l ih =>
    by_cases h : p a <;> simp [List.filterMap_cons, List.filter_cons, h, ih]

/-- C2 counterexample: a declarator whose initializer is a plain literal
(neither a function nor an arrow-function expression) still produces a
construct in the generic extractor - typed `variable` - refuting the
claim that such declarators produce no construct. -/
theorem claim_C2_counterexample :
    TypeScriptASTParser.extractFromNode (.varDecl "const" [⟨some "x", some .otherInit⟩] 1 1)
      ["const x = 5;"] =
      [{ ctype := "variable", name := "x", content := "const x = 5;", startLine := 1,
         endLine := 1,
         metadata := { isArrowFunction := some false, isConst := some true } }] := by
  decide

/-- C2 (amended): the generic extractor (`extractFromNode`) produces one
construct per declarator with a truthy name regardless of its initializer,
using the function test only to choose between the `function` and
`variable` construct types; only `Parser.handleVariableDeclaration`
restricts chunk creation to declarators whose initializer is a function or
arrow-function expression. -/
theorem claim_C2_amended (kind : String) (ds : List TSDeclarator) (s e : Nat)
    (lines : List String) (filePath : String) :
    TypeScriptASTParser.extractFromNode (.varDecl kind ds s e) lines =
      (ds.filter fun d => jsTruthyName d.name).map (fun d =>
        { ctype := if d.hasFunctionInit then "function" else "variable",
          name := d.name.getD "",
          content := TypeScriptASTParser.extractNodeContent (.varDecl kind ds s e) lines,
          startLine := s, endLine := e,
          metadata := { isArrowFunction := some (d.init = some .arrowFunctionExpr),
                        isConst := some (kind = "const") } })
    ∧ Parser.handleVariableDeclaration (.varDecl kind ds s e) filePath lines =
      (ds.filter fun d => d.hasFunctionInit).map (fun d =>
        { idKey := filePath ++ ":" ++ jsNameOr d.name, ctype := "function",
          hashKey := Parser.extractNodeContent (.varDecl kind ds s e) lines,
          granularity := "function",
          content := Parser.extractNodeContent (.varDecl kind ds s e) lines }) := by
  constructor
  · simp only [TypeScriptASTParser.extractFromNode]
    exact filterMap_ite _ _ ds
  · simp only [Parser.handleVariableDeclaration]
    exact filterMap_ite _ _ ds

/-- C2 witness: on a declaration with one arrow-function declarator and
one literal declarator, `handleVariableDeclaration` emits exactly the
function chunk. -/
theorem claim_C2_witness :
    Parser.handleVariableDeclaration
        (.varDecl "const" [⟨some "f", some .arrowFunctionExpr⟩, ⟨some "x", some .otherInit⟩] 1 1)
        "p.ts" ["const f = () => 1, x = 5;"] =
      [{ idKey := "p.ts:f", ctype := "function", hashKey := "const f = () => 1, x = 5;",
         granularity := "function", content := "const f = () => 1, x = 5;" }] := by
  have h := (claim_C2_amended "const"
    [⟨some "f", some .arrowFunctionExpr⟩, ⟨some "x", some .otherInit⟩] 1 1
    ["const f = () => 1, x = 5;"] "p.ts").2
  rw [h]
  decide

/-- C3 counterexample: on a parse failure the generic extractor returns an
empty construct list (no whole-file fallback construct), and the SvelteKit
TypeScript chunker consequently emits no chunk at all for the file. -/
theorem claim_C3_counterexample :
    (TypeScriptASTParser.parseFile (.error ()) "const x = 1;").constructs = []
    ∧ SvelteKitParser.chunkTypeScriptFile (.error ()) "const x = 1;" = [] := by
  exact ⟨rfl, by decide⟩

/-- C3 (amended): parse failures are caught in both parsers, but only
`Parser.parseTypeScriptFile` degrades to exactly one whole-file chunk
carrying the entire file text; `TypeScriptASTParser.parseFile` returns an
empty construct list (keeping the raw text only in a stray `content`
property), so `chunkTypeScriptFile` emits nothing for an unparseable
file. -/
theorem claim_C3_amended (file content : String) :
    Parser.parseTypeScriptFile (.error ()) file content =
      [{ idKey := file ++ ":" ++ Parser.jsFileName file, ctype := "documentation",
         hashKey := content, granularity := "file", content := content }]
    ∧ TypeScriptASTParser.parseFile (.error ()) content =
      { constructs := [], imports := [], exports := [], content := some content }
    ∧ SvelteKitParser.chunkTypeScriptFile (.error ()) content = [] := by
  refine ⟨rfl, rfl, ?_⟩
  simp [SvelteKitParser.chunkTypeScriptFile, TypeScriptASTParser.parseFile,
    SvelteKitParser.chunkConstructContents, SvelteKitParser.chunkConstructContentsGo]

/-- C3 witness: the whole-file fallback chunk evaluated on a concrete
unparseable file. -/
theorem claim_C3_witness :
    Parser.parseTypeScriptFile (.error ()) "f.ts" "const x = 1;" =
      [{ idKey := "f.ts:f.ts", ctype := "documentation", hashKey := "const x = 1;",
         granularity := "file", content := "const x = 1;" }] := by
  have h := (claim_C3_amended "f.ts" "const x = 1;").1
  rw [h]
  decide

/-- C6 counterexample: `splitBySize` compares raw cumulative character
counts, not the character-count/4 estimator - on a two-line text with
budget 8 it flushes after the first line, while the uniform-estimator
variant described by the spec keeps both lines in one chunk. -/
theorem claim_C6_counterexample :
    SvelteKitParser.splitBySize "aaaaaa\nbbbbbb" 8 = ["aaaaaa", "bbbbbb"]
    ∧ SvelteKitParser.splitBySizeTokenUniform "aaaaaa\nbbbbbb" 8 = ["aaaaaa\nbbbbbb"]
    ∧ SvelteKitParser.splitBySize "aaaaaa\nbbbbbb" 8
        ≠ SvelteKitParser.splitBySizeTokenUniform "aaaaaa\nbbbbbb" 8 := by
  have h1 : SvelteKitParser.splitBySize "aaaaaa\nbbbbbb" 8 = ["aaaaaa", "bbbbbb"] := by
    norm_num [SvelteKitParser.splitBySize, SvelteKitParser.splitBySizeGo, jsSplit,
      jsSplitCharsGo, String.length]
    decide
  have h2 : SvelteKitParser.splitBySizeTokenUniform "aaaaaa\nbbbbbb" 8 = ["aaaaaa\nbbbbbb"] := by
    norm_num [SvelteKitParser.splitBySizeTokenUniform, SvelteKitParser.splitBySizeTokenUniformGo,
      jsSplit, jsSplitCharsGo, estimateTokens, String.length]
    decide
  exact ⟨h1, h2, by rw [h1, h2]; decide⟩

/-- C6 (amended): the character-count/4 estimator is the size function of
the template candidates and of the construct batcher (an item with
estimator above 1500 is emitted alone), but `splitBySize` compares raw
character counts against its character budget, and knowledge-section
splitting performs no size comparison at all - it emits exactly one chunk
per section unconditionally. -/
theorem claim_C6_amended :
    (∀ (node : TNode) (src : String) (r : TemplateCandidate),
        SvelteKitParser.processASTNode node src = some r →
        r.estimatedTokens = estimateTokens r.content)
    ∧ (∀ (c : String) (cs : List String), 1500 < estimateTokens c →
        chunkConstructContents (c :: cs) = c :: chunkConstructContents cs)
    ∧ SvelteKitParser.splitBySize "aaaaaa\nbbbbbb" 8
        ≠ SvelteKitParser.splitBySizeTokenUniform "aaaaaa\nbbbbbb" 8
    ∧ (∀ (sections : List String) (fn hp : String),
        (Parser.processHeaderSections sections fn hp).length = sections.length) := by
  refine ⟨?_, ?_, ?_, ?_⟩
  · intro node src r h
    simp only [SvelteKitParser.processASTNode] at h
    split at h
    · exact absurd h (by simp)
    · split at h
      all_goals try (simp only [Option.some.injEq] at h; subst h; rfl)
      split at h
      · exact absurd h (by simp)
      · simp only [Option.some.injEq] at h
        subst h
        rfl
  · intro c cs h
    simp only [chunkConstructContents, chunkConstructContentsGo]
    rw [if_pos h]
    simp
  · have h1 : SvelteKitParser.splitBySize "aaaaaa\nbbbbbb" 8 = ["aaaaaa", "bbbbbb"] := by
      norm_num [SvelteKitParser.splitBySize, SvelteKitParser.splitBySizeGo, jsSplit,
        jsSplitCharsGo, String.length]
      decide
    have h2 : SvelteKitParser.splitBySizeTokenUniform "aaaaaa\nbbbbbb" 8
        = ["aaaaaa\nbbbbbb"] := by
      norm_num [SvelteKitParser.splitBySizeTokenUniform,
        SvelteKitParser.splitBySizeTokenUniformGo, jsSplit, jsSplitCharsGo, estimateTokens,
        String.length]
      decide
    rw [h1, h2]
    decide
  · intro sections fn hp
    simp [Parser.processHeaderSections]

/-- C6 witness: the estimator identity instantiated on a concrete
candidate, and the per-section knowledge chunk count on a concrete
section list. -/
theorem claim_C6_witness :
    (2 : ℚ) = estimateTokens "aaaaaaaa"
    ∧ (Parser.processHeaderSections ["s1", "s2"] "f" "##").length = 2 := by
  constructor
  · exact claim_C6_amended.1 (.mk .Element "div" (some 1) (some 9) []) "aaaaaaaaaa"
      ⟨"aaaaaaaa", "element-div", 2⟩
      (by
        norm_num [SvelteKitParser.processASTNode, estimateTokens, jsSlice, jsFalsyNat,
          TNode.nstart, TNode.nend, TNode.kind, TNode.name, String.length]
        decide)
  · simpa using claim_C6_amended.2.2.2 ["s1", "s2"] "f" "##"

theorem enumFrom_map_snd_eq {α β : Type} (f : α → β) (l : List α) : ∀ (n : Nat),
    ((List.enumFrom n l).map fun p => f p.2) = l.map f := by
  induction l with
  | nil => intro n; rfl
  | cons a l ih => intro n; simp [List.enumFrom, ih]

theorem enum_map_snd_eq {α β : Type} (f : α → β) (l : List α) :
    (l.enum.map fun p => f p.2) = l.map f :=
  enumFrom_map_snd_eq f l 0

/-- C9 counterexample: two runs of the template portion of
`parseSvelteFile` on identical input differ whenever the two runs' id
supplies (the external `nanoid()` stream) differ - chunk identifiers are
not a function of the input, so the full chunk sequences are not
identical across runs. -/
theorem claim_C9_counterexample :
    parseSvelteFileTemplateChunks (fun _ => "run1-id") "page" "abc" { html := none }
      ≠ parseSvelteFileTemplateChunks (fun _ => "run2-id") "page" "abc" { html := none } := by
  decide

/-- C9 (amended): the template splitter is deterministic in everything
except the identifiers - for any two id supplies, the emitted sequences
agree on types and contents (in the same order), the contents are exactly
those of `splitLargeTemplate` with the default budget 1000, and each
chunk's id is the supply's value at its emission index. -/
theorem claim_C9_amended (s1 s2 : Nat → String) (sem content : String) (ast : SvelteAst) :
    (parseSvelteFileTemplateChunks s1 sem content ast).map (fun c => (c.ctype, c.content))
      = (parseSvelteFileTemplateChunks s2 sem content ast).map (fun c => (c.ctype, c.content))
    ∧ (parseSvelteFileTemplateChunks s1 sem content ast).map SvelteOutChunk.content
      = (splitLargeTemplate content ast 1000).map TemplateChunk.content
    ∧ ∀ i c, (parseSvelteFileTemplateChunks s1 sem content ast).get? i = some c →
        c.id = s1 i := by
  refine ⟨?_, ?_, ?_⟩
  · simp only [parseSvelteFileTemplateChunks, List.map_map]
    rfl
  · simp only [parseSvelteFileTemplateChunks, List.map_map]
    exact enum_map_snd_eq TemplateChunk.content (splitLargeTemplate content ast 1000)
  · intro i c hc
    simp only [parseSvelteFileTemplateChunks] at hc
    rw [List.get?_map, List.get?_enum] at hc
    cases htc : (splitLargeTemplate content ast 1000).get? i with
    | none => rw [htc] at hc; simp at hc
    | some tc =>
      rw [htc] at hc
      simp only [Option.map_some', Option.some.injEq] at hc
      subst hc
      rfl

/-- C9 witness: the supply-independent projection evaluated on two
concrete runs, and the id of the first emitted chunk coming from the
supply. -/
theorem claim_C9_witness :
    (parseSvelteFileTemplateChunks (fun _ => "w1") "page" "abc" { html := none }).map
        (fun c => (c.ctype, c.content))
      = (parseSvelteFileTemplateChunks (fun _ => "w2") "page" "abc" { html := none }).map
        (fun c => (c.ctype, c.content))
    ∧ ({ id := "w1", ctype := "page", content := "abc" } : SvelteOutChunk).id
        = (fun _ : Nat => "w1") 0 := by
  refine ⟨(claim_C9_amended (fun _ => "w1") (fun _ => "w2") "page" "abc" { html := none }).1, ?_⟩
  exact (claim_C9_amended (fun _ => "w1") (fun _ => "w2") "page" "abc" { html := none }).2.2 0
    { id := "w1", ctype := "page", content := "abc" } (by decide)

/-- Single step of `jsSplitCharsGo` on a cons cell. -/
theorem jsSplitCharsGo_cons_step (sh : Char) (st : List Char) (fuel : Nat) (c : Char)
    (rest acc : List Char) :
    jsSplitCharsGo sh st (fuel + 1) (c :: rest) acc =
      if c = sh ∧ rest.take st.length = st then
        acc :: jsSplitCharsGo sh st fuel (rest.drop st.length) []
      else jsSplitCharsGo sh st fuel rest (acc ++ [c]) := rfl

/-- `jsSplitCharsGo` on the empty list yields the accumulated piece. -/
theorem jsSplitCharsGo_nil (sh : Char) (st : List Char) (fuel : Nat) (acc : List Char) :
    jsSplitCharsGo sh st fuel [] acc = [acc] := by
  cases fuel <;> rfl

/-- Scanning a run of non-separator characters consumes them into the
accumulator, one unit of fuel per character. -/
theorem jsSplitCharsGo_replicate (sh : Char) (st : List Char) (a : Char) (h : a ≠ sh) :
    ∀ (n f : Nat) (l acc : List Char),
    jsSplitCharsGo sh st (n + f) (List.replicate n a ++ l) acc
      = jsSplitCharsGo sh st f l (acc ++ List.replicate n a) := by
  intro n
  induction n with
  | zero => intro f l acc; simp
  | succ n ih =>
    intro f l acc
    rw [show n + 1 + f = (n + f) + 1 from by omega, List.replicate_succ, List.cons_append]
    rw [jsSplitCharsGo_cons_step]
    rw [if_neg (fun hcon => h hcon.1)]
    rw [ih f l (acc ++ [a])]
    rw [List.append_assoc, List.singleton_append]

/-- A trailing run of non-separator characters yields the final piece. -/
theorem jsSplitCharsGo_replicate_nil (sh : Char) (st : List Char) (a : Char) (h : a ≠ sh)
    (n : Nat) (acc : List Char) :
    jsSplitCharsGo sh st n (List.replicate n a) acc = [acc ++ List.replicate n a] := by
  have hstep := jsSplitCharsGo_replicate sh st a h n 0 [] acc
  rw [Nat.add_zero, List.append_nil] at hstep
  rw [hstep, jsSplitCharsGo_nil]

theorem bigKnowledgeList_length : bigKnowledgeList.length = 2050 + (1 + (1 + 2050)) := by
  simp only [bigKnowledgeList, List.length_append, List.length_cons, List.length_replicate]

theorem jsSplit_bigKnowledgeDoc_hash2 : jsSplit "\n## " bigKnowledgeDoc = [bigKnowledgeDoc] := by
  have key : jsSplitCharsGo '\n' ['#', '#', ' '] (2050 + (1 + (1 + 2050)))
      bigKnowledgeList [] = [bigKnowledgeList] := by
    rw [show bigKnowledgeList
        = List.replicate 2050 'a' ++ ('\n' :: '\n' :: List.replicate 2050 'b') from rfl]
    rw [jsSplitCharsGo_replicate '\n' ['#', '#', ' '] 'a' (by decide)]
    rw [Nat.add_comm 1 (1 + 2050)]
    rw [jsSplitCharsGo_cons_step]
    rw [if_neg (by
      rintro ⟨-, h2⟩
      rw [show ('\n' :: List.replicate 2050 'b').take (['#', '#', ' '] : List Char).length
          = '\n' :: (List.replicate 2050 'b').take 2 from rfl] at h2
      injection h2 with hh _
      exact absurd hh (by decide))]
    rw [Nat.add_comm 1 2050]
    rw [jsSplitCharsGo_cons_step]
    rw [if_neg (by
      rintro ⟨-, h2⟩
      rw [List.take_replicate] at h2
      rw [show min (['#', '#', ' '] : List Char).length 2050 = 3 from by norm_num] at h2
      exact absurd h2 (by decide))]
    rw [jsSplitCharsGo_replicate_nil '\n' ['#', '#', ' '] 'b' (by decide)]
    rw [show (([] : List Char) ++ List.replicate 2050 'a') ++ ['\n'] ++ ['\n']
          ++ List.replicate 2050 'b'
        = List.replicate 2050 'a' ++ ('\n' :: '\n' :: List.replicate 2050 'b') from by
      rw [List.nil_append, List.append_assoc, List.append_assoc, List.singleton_append,
        List.singleton_append]]
  show (jsSplitCharsGo '\n' ['#', '#', ' '] bigKnowledgeList.length bigKnowledgeList []).map
      String.mk = [bigKnowledgeDoc]
  rw [bigKnowledgeList_length, key]
  rfl

theorem jsSplit_bigKnowledgeDoc_hash1 : jsSplit "\n# " bigKnowledgeDoc = [bigKnowledgeDoc] := by
  have key : jsSplitCharsGo '\n' ['#', ' '] (2050 + (1 + (1 + 2050)))
      bigKnowledgeList [] = [bigKnowledgeList] := by
    rw [show bigKnowledgeList
        = List.replicate 2050 'a' ++ ('\n' :: '\n' :: List.replicate 2050 'b') from rfl]
    rw [jsSplitCharsGo_replicate '\n' ['#', ' '] 'a' (by decide)]
    rw [Nat.add_comm 1 (1 + 2050)]
    rw [jsSplitCharsGo_cons_step]
    rw [if_neg (by
      rintro ⟨-, h2⟩
      rw [show ('\n' :: List.replicate 2050 'b').take (['#', ' '] : List Char).length
          = '\n' :: (List.replicate 2050 'b').take 1 from rfl] at h2
      injection h2 with hh _
      exact absurd hh (by decide))]
    rw [Nat.add_comm 1 2050]
    rw [jsSplitCharsGo_cons_step]
    rw [if_neg (by
      rintro ⟨-, h2⟩
      rw [List.take_replicate] at h2
      rw [show min (['#', ' '] : List Char).length 2050 = 2 from by norm_num] at h2
      exact absurd h2 (by decide))]
    rw [jsSplitCharsGo_replicate_nil '\n' ['#', ' '] 'b' (by decide)]
    rw [show (([] : List Char) ++ List.replicate 2050 'a') ++ ['\n'] ++ ['\n']
          ++ List.replicate 2050 'b'
        = List.replicate 2050 'a' ++ ('\n' :: '\n' :: List.replicate 2050 'b') from by
      rw [List.nil_append, List.append_assoc, List.append_assoc, List.singleton_append,
        List.singleton_append]]
  show (jsSplitCharsGo '\n' ['#', ' '] bigKnowledgeList.length bigKnowledgeList []).map
      String.mk = [bigKnowledgeDoc]
  rw [bigKnowledgeList_length, key]
  rfl

theorem jsSplit_bigKnowledgeDoc_paras : jsSplit "\n\n" bigKnowledgeDoc
    = [String.mk (List.replicate 2050 'a'), String.mk (List.replicate 2050 'b')] := by
  have key : jsSplitCharsGo '\n' ['\n'] (2050 + (1 + (1 + 2050))) bigKnowledgeList []
      = [List.replicate 2050 'a', List.replicate 2050 'b'] := by
    rw [show bigKnowledgeList
        = List.replicate 2050 'a' ++ ('\n' :: '\n' :: List.replicate 2050 'b') from rfl]
    rw [jsSplitCharsGo_replicate '\n' ['\n'] 'a' (by decide)]
    rw [Nat.add_comm 1 (1 + 2050)]
    rw [jsSplitCharsGo_cons_step]
    rw [if_pos ⟨rfl, rfl⟩]
    rw [show ('\n' :: List.replicate 2050 'b').drop (['\n'] : List Char).length
        = List.replicate 2050 'b' from rfl]
    rw [show (1 + 2050 : Nat) = 2050 + 1 from by omega]
    nth_rewrite 1 [show List.replicate 2050 'b' = List.replicate 2050 'b' ++ ([] : List Char)
      from (List.append_nil _).symm]
    rw [jsSplitCharsGo_replicate '\n' ['\n'] 'b' (by decide) 2050 1 [] []]
    rw [jsSplitCharsGo_nil, List.nil_append, List.nil_append]
  show (jsSplitCharsGo '\n' ['\n'] bigKnowledgeList.length bigKnowledgeList []).map
      String.mk = _
  rw [bigKnowledgeList_length, key]
  rfl

theorem mem_dropWhile_of_neg (p : Char → Bool) (c : Char) : ∀ (l : List Char),
    c ∈ l → p c = false → c ∈ l.dropWhile p := by
  intro l
  induction l with
  | nil => intro hc _; simp at hc
  | cons a l ih =>
    intro hc hp
    rw [List.dropWhile_cons]
    by_cases ha : p a = true
    · rw [if_pos ha]
      rcases List.mem_cons.mp hc with rfl | hc2
      · rw [hp] at ha
        simp at ha
      · exact ih hc2 hp
    · rw [if_neg ha]
      exact hc

theorem jsTrim_not_empty {s : String} {c : Char} (hc : c ∈ s.data)
    (hp : c.isWhitespace = false) : (!(jsTrim s).isEmpty) = true := by
  have h1 : c ∈ s.data.dropWhile Char.isWhitespace := mem_dropWhile_of_neg _ c _ hc hp
  have h2 : c ∈ (s.data.dropWhile Char.isWhitespace).reverse := List.mem_reverse.mpr h1
  have h3 : c ∈ (s.data.dropWhile Char.isWhitespace).reverse.dropWhile Char.isWhitespace :=
    mem_dropWhile_of_neg _ c _ h2 hp
  have h4 : c ∈
      ((s.data.dropWhile Char.isWhitespace).reverse.dropWhile Char.isWhitespace).reverse :=
    List.mem_reverse.mpr h3
  have h5 : jsTrim s ≠ "" := by
    intro he
    have hd := congrArg String.data he
    have hnil :
        ((s.data.dropWhile Char.isWhitespace).reverse.dropWhile Char.isWhitespace).reverse
          = [] := hd
    rw [hnil] at h4
    exact absurd h4 (List.not_mem_nil c)
  cases hbe : (jsTrim s).isEmpty
  · rfl
  · exact absurd ((String.isEmpty_iff _).mp hbe) h5

/-- C7 counterexample: a single-section knowledge document (no `#` or
`##` boundary anywhere) is emitted as exactly one whole-document chunk of
granularity `file`, even though it is more than 4000 characters long and
consists of two blank-line-separated paragraphs of 2050 characters each -
no paragraph-level batching into budget-sized chunks takes place. -/
theorem claim_C7_counterexample :
    Parser.parseLlmsTxt bigKnowledgeDoc "svelte5.txt" =
      [{ idKey := "knowledge:svelte5.txt", ctype := "documentation",
         hashKey := bigKnowledgeDoc, granularity := "file", content := bigKnowledgeDoc }]
    ∧ 4000 < bigKnowledgeDoc.length
    ∧ jsSplit "\n\n" bigKnowledgeDoc
        = [String.mk (List.replicate 2050 'a'), String.mk (List.replicate 2050 'b')]
    ∧ ∀ p ∈ jsSplit "\n\n" bigKnowledgeDoc, p.length ≤ 4000 := by
  have hmem : 'a' ∈ bigKnowledgeDoc.data := by
    show 'a' ∈ bigKnowledgeList
    rw [show bigKnowledgeList
        = List.replicate 2050 'a' ++ ('\n' :: '\n' :: List.replicate 2050 'b') from rfl]
    exact List.mem_append_left _ (List.mem_replicate.mpr ⟨by norm_num, rfl⟩)
  have htrim := jsTrim_not_empty hmem (by decide)
  refine ⟨?_, ?_, jsSplit_bigKnowledgeDoc_paras, ?_⟩
  · simp only [Parser.parseLlmsTxt]
    rw [jsSplit_bigKnowledgeDoc_hash2, jsSplit_bigKnowledgeDoc_hash1]
    simp [List.filter_cons, htrim]
  · have hlen : bigKnowledgeDoc.length = bigKnowledgeList.length := rfl
    rw [hlen, bigKnowledgeList_length]
    norm_num
  · intro p hp
    rw [jsSplit_bigKnowledgeDoc_paras] at hp
    simp only [List.mem_cons, List.not_mem_nil, or_false] at hp
    rcases hp with rfl | rfl
    · have h : (String.mk (List.replicate 2050 'a')).length
          = (List.replicate 2050 'a').length := rfl
      rw [h, List.length_replicate]
      norm_num
    · have h : (String.mk (List.replicate 2050 'b')).length
          = (List.replicate 2050 'b').length := rfl
      rw [h, List.length_replicate]
      norm_num

/-- C7 (amended): the knowledge splitter splits on `'\n## '` boundaries
and falls back to `'\n# '` boundaries; when both leave at most one
non-blank section, the document is emitted as exactly one whole-document
chunk (granularity `file`) - there is no paragraph-level batching - and
when the `'##'` split finds several sections, one chunk is emitted per
section. -/
theorem claim_C7_amended (doc fn : String) :
    (((jsSplit "\n## " doc).filter fun s => !(jsTrim s).isEmpty).length ≤ 1 →
      ((jsSplit "\n# " doc).filter fun s => !(jsTrim s).isEmpty).length ≤ 1 →
      Parser.parseLlmsTxt doc fn =
        [{ idKey := "knowledge:" ++ fn, ctype := "documentation", hashKey := doc,
           granularity := "file", content := doc }])
    ∧ (1 < ((jsSplit "\n## " doc).filter fun s => !(jsTrim s).isEmpty).length →
      (Parser.parseLlmsTxt doc fn).length
        = ((jsSplit "\n## " doc).filter fun s => !(jsTrim s).isEmpty).length) := by
  constructor
  · intro h2 h1
    simp only [Parser.parseLlmsTxt]
    rw [if_pos h2, if_pos h1]
  · intro h2
    simp only [Parser.parseLlmsTxt]
    rw [if_neg (by omega)]
    simp [Parser.processHeaderSections]

/-- C7 witness: the single-section fallback evaluated on a concrete
headerless document. -/
theorem claim_C7_witness :
    Parser.parseLlmsTxt "hello world" "f.txt" =
      [{ idKey := "knowledge:f.txt", ctype := "documentation", hashKey := "hello world",
         granularity := "file", content := "hello world" }] :=
  (claim_C7_amended "hello world" "f.txt").1 (by decide) (by decide)

end CodeGuardian
